import Mathlib

/-!
Verification of the fix44-forge-helpers codec core.

The Rust source is shallowly embedded: byte buffers are `List Nat` (each
entry an ASCII code), machine integers are `Nat`/`Int` with explicit
`% 2 ^ w` where the source relies on wrapping, and in-place buffer stores
are `List.set`.  Each embedded definition keeps the name of the source
function it models.
-/

/-- Byte-level store of a run of bytes starting at index `j`
(models consecutive unchecked stores / `ptr::copy_nonoverlapping`). -/
def writeBytesAt : List Nat → Nat → List Nat → List Nat
  | buf, _, [] => buf
  | buf, j, b :: rest => writeBytesAt (buf.set j b) (j + 1) rest

/-- The `len` bytes of `buf` starting at index `pos`. -/
def region (buf : List Nat) (pos len : Nat) : List Nat :=
  (buf.drop pos).take len

/-- Source `is_digit` (reading.rs): ASCII digit test. -/
def is_digit (b : Nat) : Bool :=
  48 ≤ b && b ≤ 57

/-- Shared accumulator loop of the unsigned readers: scan while digits,
accumulate `acc * 10 + digit` wrapping modulo `m`, stop at the first
non-digit byte or at the end of input. -/
def readU (m : Nat) : List Nat → Nat → Nat
  | [], acc => acc
  | b :: rest, acc =>
    if is_digit b then readU m rest ((acc * 10 + (b - 48)) % m) else acc

/-- Source `read_u16` (reading.rs): release-mode wrapping is modulo 2^16. -/
def read_u16 (buf : List Nat) : Nat :=
  readU (2 ^ 16) buf 0

/-- Source `read_u32` (reading.rs). -/
def read_u32 (buf : List Nat) : Nat :=
  readU (2 ^ 32) buf 0

/-- Source `read_u64` (reading.rs). -/
def read_u64 (buf : List Nat) : Nat :=
  readU (2 ^ 64) buf 0

/-- Reinterpret an unsigned `w`-bit value as a signed one (Rust `as iN`). -/
def toI (w : Nat) (u : Nat) : Int :=
  if u < 2 ^ (w - 1) then (u : Int) else (u : Int) - 2 ^ w

/-- Two's-complement wrap of an integer into `w` signed bits. -/
def wrapI (w : Nat) (x : Int) : Int :=
  (x + 2 ^ (w - 1)) % 2 ^ w - 2 ^ (w - 1)

/-- Source `read_i16` (reading.rs): on a leading minus, parse the unsigned
magnitude, special-case the magnitude `2^15` to `i16::MIN`, otherwise
negate (in i32) and truncate to i16; otherwise reinterpret `read_u16`. -/
def read_i16 (buf : List Nat) : Int :=
  match buf with
  | [] => 0
  | b :: rest =>
    if b = 45 then
      let mag := read_u16 rest
      if mag = 2 ^ 15 then -(2 ^ 15) else wrapI 16 (-(mag : Int))
    else toI 16 (read_u16 (b :: rest))

/-- Source `read_i32` (reading.rs). -/
def read_i32 (buf : List Nat) : Int :=
  match buf with
  | [] => 0
  | b :: rest =>
    if b = 45 then
      let mag := read_u32 rest
      if mag = 2 ^ 31 then -(2 ^ 31) else wrapI 32 (-(mag : Int))
    else toI 32 (read_u32 (b :: rest))

/-- Source `read_i64` (reading.rs): the magnitude is cast `u64 -> i64`
before negation. -/
def read_i64 (buf : List Nat) : Int :=
  match buf with
  | [] => 0
  | b :: rest =>
    if b = 45 then
      let mag := read_u64 rest
      if mag = 2 ^ 63 then -(2 ^ 63) else wrapI 64 (-(toI 64 mag))
    else toI 64 (read_u64 (b :: rest))

/-- Source `DIGIT_PAIRS` (lib.rs): the two ASCII bytes of every value 0-99. -/
def DIGIT_PAIRS : List Nat := [
  48, 48, 48, 49, 48, 50, 48, 51, 48, 52, 48, 53, 48, 54, 48, 55, 48, 56, 48, 57, 49, 48, 49, 49,
  49, 50, 49, 51, 49, 52, 49, 53, 49, 54, 49, 55, 49, 56, 49, 57, 50, 48, 50, 49, 50, 50, 50, 51,
  50, 52, 50, 53, 50, 54, 50, 55, 50, 56, 50, 57, 51, 48, 51, 49, 51, 50, 51, 51, 51, 52, 51, 53,
  51, 54, 51, 55, 51, 56, 51, 57, 52, 48, 52, 49, 52, 50, 52, 51, 52, 52, 52, 53, 52, 54, 52, 55,
  52, 56, 52, 57, 53, 48, 53, 49, 53, 50, 53, 51, 53, 52, 53, 53, 53, 54, 53, 55, 53, 56, 53, 57,
  54, 48, 54, 49, 54, 50, 54, 51, 54, 52, 54, 53, 54, 54, 54, 55, 54, 56, 54, 57, 55, 48, 55, 49,
  55, 50, 55, 51, 55, 52, 55, 53, 55, 54, 55, 55, 55, 56, 55, 57, 56, 48, 56, 49, 56, 50, 56, 51,
  56, 52, 56, 53, 56, 54, 56, 55, 56, 56, 56, 57, 57, 48, 57, 49, 57, 50, 57, 51, 57, 52, 57, 53,
  57, 54, 57, 55, 57, 56, 57, 57]

/-- One two-byte store from `DIGIT_PAIRS` at index `i` (the writers' pair step). -/
def writePair (buf : List Nat) (i rem : Nat) : List Nat :=
  (buf.set i (DIGIT_PAIRS.getD (rem * 2) 0)).set (i + 1) (DIGIT_PAIRS.getD (rem * 2 + 1) 0)

/-- Shared back-to-front fill of the unsigned writers (writing.rs): while
`n >= 100` consume two digits per step, then finish with one digit
(`n < 10`) or one final pair. `i` is one past the last byte to write. -/
def writeBack (buf : List Nat) (i n : Nat) : List Nat :=
  if 100 ≤ n then
    writeBack (writePair buf (i - 2) (n % 100)) (i - 2) (n / 100)
  else if n < 10 then
    buf.set (i - 1) (n + 48)
  else
    writePair buf (i - 2) n
  termination_by n
  decreasing_by exact Nat.div_lt_self (by omega) (by omega)

/-- Source `digits_u16` (writing.rs) branch table. -/
def digits_u16 (n : Nat) : Nat :=
  if 10000 ≤ n then 5
  else if 1000 ≤ n then 4
  else if 100 ≤ n then 3
  else if 10 ≤ n then 2
  else 1

/-- Source `digits_u32` (writing.rs) branch table. -/
def digits_u32 (n : Nat) : Nat :=
  if 1000000000 ≤ n then 10
  else if 100000000 ≤ n then 9
  else if 10000000 ≤ n then 8
  else if 1000000 ≤ n then 7
  else if 100000 ≤ n then 6
  else if 10000 ≤ n then 5
  else if 1000 ≤ n then 4
  else if 100 ≤ n then 3
  else if 10 ≤ n then 2
  else 1

/-- Source `digits_u64` (writing.rs) branch table. -/
def digits_u64 (n : Nat) : Nat :=
  if 10000000000000000000 ≤ n then 20
  else if 1000000000000000000 ≤ n then 19
  else if 100000000000000000 ≤ n then 18
  else if 10000000000000000 ≤ n then 17
  else if 1000000000000000 ≤ n then 16
  else if 100000000000000 ≤ n then 15
  else if 10000000000000 ≤ n then 14
  else if 1000000000000 ≤ n then 13
  else if 100000000000 ≤ n then 12
  else if 10000000000 ≤ n then 11
  else if 1000000000 ≤ n then 10
  else if 100000000 ≤ n then 9
  else if 10000000 ≤ n then 8
  else if 1000000 ≤ n then 7
  else if 100000 ≤ n then 6
  else if 10000 ≤ n then 5
  else if 1000 ≤ n then 4
  else if 100 ≤ n then 3
  else if 10 ≤ n then 2
  else 1

/-- Source `write_u16` (writing.rs): digit count via the branch table, then
the shared back-to-front fill; returns the buffer and the bytes written. -/
def write_u16 (buf : List Nat) (pos n : Nat) : List Nat × Nat :=
  (writeBack buf (pos + digits_u16 n) n, digits_u16 n)

/-- Source `write_u32` (writing.rs). -/
def write_u32 (buf : List Nat) (pos n : Nat) : List Nat × Nat :=
  (writeBack buf (pos + digits_u32 n) n, digits_u32 n)

/-- Source `write_u64` (writing.rs). -/
def write_u64 (buf : List Nat) (pos n : Nat) : List Nat × Nat :=
  (writeBack buf (pos + digits_u64 n) n, digits_u64 n)

/-- Source `write_i16` (writing.rs): non-negative values delegate to
`write_u16`; `i16::MIN` writes the literal bytes of `-32768`; other
negative values write a minus sign then the negated magnitude. -/
def write_i16 (buf : List Nat) (offset : Nat) (n : Int) : List Nat × Nat :=
  if 0 ≤ n then
    write_u16 buf offset n.toNat
  else if n = -(2 ^ 15) then
    (writeBytesAt (buf.set offset 45) (offset + 1) [51, 50, 55, 54, 56], 6)
  else
    let r := write_u16 (buf.set offset 45) (offset + 1) (-n).toNat
    (r.1, 1 + r.2)

/-- Source `write_i32` (writing.rs); the `i32::MIN` literal is `-2147483648`. -/
def write_i32 (buf : List Nat) (offset : Nat) (n : Int) : List Nat × Nat :=
  if 0 ≤ n then
    write_u32 buf offset n.toNat
  else if n = -(2 ^ 31) then
    (writeBytesAt (buf.set offset 45) (offset + 1)
      [50, 49, 52, 55, 52, 56, 51, 54, 52, 56], 11)
  else
    let r := write_u32 (buf.set offset 45) (offset + 1) (-n).toNat
    (r.1, 1 + r.2)

/-- Source `write_i64` (writing.rs); the `i64::MIN` literal is
`-9223372036854775808`. -/
def write_i64 (buf : List Nat) (offset : Nat) (n : Int) : List Nat × Nat :=
  if 0 ≤ n then
    write_u64 buf offset n.toNat
  else if n = -(2 ^ 63) then
    (writeBytesAt (buf.set offset 45) (offset + 1)
      [57, 50, 50, 51, 51, 55, 50, 48, 51, 54, 56, 53, 52, 55, 55, 53, 56, 48, 56], 20)
  else
    let r := write_u64 (buf.set offset 45) (offset + 1) (-n).toNat
    (r.1, 1 + r.2)

/-- Source `FORGE_BUFFER_SIZE` (buffer.rs). -/
def FORGE_BUFFER_SIZE : Nat := 1024

/-- Source `BODY_LENGTH_VALUE_POS` (buffer.rs). -/
def BODY_LENGTH_VALUE_POS : Nat := 12

/-- Source `forge_out_buffer` (buffer.rs): a zero-initialized 1024-byte
buffer whose head is built as the bytes of `8=`, then the version string,
then the bytes of `SOH 9=0000 SOH 35=`. -/
def forge_out_buffer (fix_version : List Nat) : List Nat :=
  let buffer := List.replicate FORGE_BUFFER_SIZE 0
  let buffer := (buffer.set 0 56).set 1 61
  let buffer := writeBytesAt buffer 2 fix_version
  writeBytesAt buffer (2 + fix_version.length) [1, 57, 61, 48, 48, 48, 48, 1, 51, 53, 61]

/-- Source `update_body_length` (buffer.rs): `message_length - 17` with
64-bit wrapping subtraction, truncated to `u16`, written as four decimal
digits (thousands, hundreds, tens, units) at `BODY_LENGTH_VALUE_POS`. -/
def update_body_length (buffer : List Nat) (message_length : Nat) : List Nat :=
  let body_length := (message_length + 2 ^ 64 - 17) % 2 ^ 64 % 2 ^ 16
  ((((buffer.set BODY_LENGTH_VALUE_POS (48 + body_length / 1000 % 10)).set
      (BODY_LENGTH_VALUE_POS + 1) (48 + body_length / 100 % 10)).set
      (BODY_LENGTH_VALUE_POS + 2) (48 + body_length / 10 % 10)).set
      (BODY_LENGTH_VALUE_POS + 3) (48 + body_length % 10))

/-- Source `digit36` (special.rs): remainders 0-9 map to ASCII digits,
10-35 to uppercase letters. -/
def digit36 (rem : Nat) : Nat :=
  if rem < 10 then 48 + rem else 65 + (rem - 10)

/-- The `for i in 0..13` loop of `encode_base36_fixed13` (special.rs):
iteration `i` stores the base-36 digit of weight `36 ^ i` at
`offset + 12 - i` and divides the value by 36. -/
def encodeLoop (dst : List Nat) (offset n i : Nat) : List Nat :=
  if i < 13 then
    let q := n / 36
    let rem := n - q * 36
    encodeLoop (dst.set (offset + 12 - i) (digit36 rem)) offset q (i + 1)
  else dst
  termination_by 13 - i

/-- Source `encode_base36_fixed13` (special.rs): returns the untouched
buffer and 0 when fewer than 13 bytes remain from `offset` (saturating
subtraction, as in the source), otherwise runs the digit loop and
returns 13. -/
def encode_base36_fixed13 (dst : List Nat) (offset n : Nat) : List Nat × Nat :=
  if dst.length - offset < 13 then (dst, 0)
  else (encodeLoop dst offset n 0, 13)

/-- Source `write_tag_and_ClOrdID` (special.rs).  The generated identifier
`next_id_u64()` reads global atomic state; it is passed here explicitly as
`id`, which is the only influence that state has on this function. -/
def write_tag_and_ClOrdID (bytes : List Nat) (offset : Nat) (tag_and_eq : List Nat)
    (id : Nat) : List Nat × Nat :=
  let bytes1 := writeBytesAt bytes offset tag_and_eq
  let pos0 := tag_and_eq.length
  let r := encode_base36_fixed13 bytes1 (offset + pos0) id
  let pos1 := pos0 + r.2
  (r.1.set (offset + pos1) 1, pos1 + 1)

/-- Source `ReadError` (errors.rs).  `meta` entries are
(name, tag-or-count-tag, kind) with kind 0 = field, 1 = component,
2 = group. -/
inductive ReadError where
  | MissingRequiredFields (missing_mask : Nat) (meta : List (String × Nat × Nat))
  | InvalidValue (name : String) (tag : Nat) (msg : String)

/-- Uppercase hexadecimal digit (for the mask shown by `Display`). -/
def hexUpperDigit (d : Nat) : Char :=
  if d < 10 then Char.ofNat (48 + d) else Char.ofNat (65 + (d - 10))

/-- Uppercase hexadecimal rendering of a natural number, as Rust
format `0X` produces (single `0` for zero). -/
def hexUpper (n : Nat) : String :=
  if n = 0 then "0"
  else if n < 16 then String.mk [hexUpperDigit n]
  else hexUpper (n / 16) ++ String.mk [hexUpperDigit (n % 16)]
  termination_by n
  decreasing_by exact Nat.div_lt_self (by omega) (by omega)

/-- One rendered item of the missing-members list (errors.rs `fmt`):
group kinds print `countTag=`, fields and components print `tag=`. -/
def renderMissingItem (name : String) (tag kind : Nat) : String :=
  let kind_str := if kind = 0 then "field" else if kind = 1 then "component" else "group"
  if kind = 2 then kind_str ++ " " ++ name ++ "(countTag=" ++ toString tag ++ ")"
  else kind_str ++ " " ++ name ++ "(tag=" ++ toString tag ++ ")"

/-- Source `ReadError::fmt` (errors.rs `Display`): mask 0 renders the fixed
message; otherwise the mask in hex followed by the comma-joined items whose
mask bit is set, in descriptor order. -/
def renderReadError : ReadError → String
  | .MissingRequiredFields missing_mask meta =>
    if missing_mask = 0 then "No required members are missing"
    else
      "Missing required members (mask=0x" ++ hexUpper missing_mask ++ "): " ++
        String.intercalate ", "
          ((meta.enum.filter fun p => (missing_mask >>> (p.1 % 64)) % 2 = 1).map
            fun p => renderMissingItem p.2.1 p.2.2.1 p.2.2.2)
  | .InvalidValue name tag msg =>
    "Invalid value for " ++ name ++ " (tag=" ++ toString tag ++ "): " ++ msg

/-- Source `ReadError::missing_member_names` (errors.rs): the names whose
mask bit is set, in descriptor order (built only when the mask is
non-zero, as in the source), or `none` for the invalid-value shape.
The test is `(missing_mask >> i) & 1` on a `u64`; in release mode a Rust
shift masks its amount modulo the width, hence `>>> (i % 64)`. -/
def missing_member_names : ReadError → Option (List String)
  | .MissingRequiredFields missing_mask meta =>
    some (if missing_mask ≠ 0 then
      (meta.enum.filter fun p => (missing_mask >>> (p.1 % 64)) % 2 = 1).map fun p => p.2.1
    else [])
  | .InvalidValue _ _ _ => none

theorem writeBytesAt_length (L : List Nat) : ∀ (buf : List Nat) (j : Nat),
    (writeBytesAt buf j L).length = buf.length := by
  induction L with
  | nil => intro buf j; rfl
  | cons b rest ih =>
    intro buf j
    simp [writeBytesAt, ih]

theorem writeBytesAt_getElem? (L : List Nat) : ∀ (buf : List Nat) (j k : Nat),
    (writeBytesAt buf j L)[k]? =
      if j ≤ k ∧ k < j + L.length then
        (if k < buf.length then some (L.getD (k - j) 0) else none)
      else buf[k]? := by
  induction L with
  | nil =>
    intro buf j k
    rw [writeBytesAt, if_neg (by simp only [List.length_nil]; omega)]
  | cons b rest ih =>
    intro buf j k
    rw [writeBytesAt, ih, List.length_set]
    by_cases hA : j + 1 ≤ k ∧ k < j + 1 + rest.length
    · rw [if_pos hA, if_pos (show j ≤ k ∧ k < j + (b :: rest).length by
        simp only [List.length_cons]; omega)]
      have hkj : k - j = (k - (j + 1)) + 1 := by omega
      rw [hkj, List.getD_cons_succ]
    · rw [if_neg hA, List.getElem?_set]
      by_cases hjk : j = k
      · subst hjk
        rw [if_pos rfl, if_pos (show j ≤ j ∧ j < j + (b :: rest).length by
          simp only [List.length_cons]; omega)]
        simp
      · rw [if_neg hjk, if_neg (show ¬(j ≤ k ∧ k < j + (b :: rest).length) by
          simp only [List.length_cons]; omega)]

theorem writeBytesAt_append (L1 L2 : List Nat) : ∀ (buf : List Nat) (j : Nat),
    writeBytesAt buf j (L1 ++ L2) = writeBytesAt (writeBytesAt buf j L1) (j + L1.length) L2 := by
  induction L1 with
  | nil => intro buf j; simp [writeBytesAt]
  | cons b rest ih =>
    intro buf j
    simp only [List.cons_append, writeBytesAt, List.length_cons]
    rw [show j + (rest.length + 1) = j + 1 + rest.length by omega]
    exact ih (buf.set j b) (j + 1)

theorem writeBytesAt_comm (L1 L2 : List Nat) (buf : List Nat) (j1 j2 : Nat)
    (h : j1 + L1.length ≤ j2) :
    writeBytesAt (writeBytesAt buf j2 L2) j1 L1 =
      writeBytesAt (writeBytesAt buf j1 L1) j2 L2 := by
  apply List.ext_getElem?
  intro k
  simp only [writeBytesAt_getElem?, writeBytesAt_length]
  by_cases h1 : j1 ≤ k ∧ k < j1 + L1.length
  · have h2 : ¬(j2 ≤ k ∧ k < j2 + L2.length) := by omega
    simp [h1, h2]
  · simp [h1]

theorem region_length (buf : List Nat) (pos len : Nat) (h : pos + len ≤ buf.length) :
    (region buf pos len).length = len := by
  simp [region]
  omega

theorem region_getElem? (buf : List Nat) (pos len k : Nat) :
    (region buf pos len)[k]? = if k < len then buf[pos + k]? else none := by
  simp [region, List.getElem?_take, List.getElem?_drop]

theorem region_writeBytesAt (buf : List Nat) (pos : Nat) (L : List Nat)
    (h : pos + L.length ≤ buf.length) :
    region (writeBytesAt buf pos L) pos L.length = L := by
  apply List.ext_getElem?
  intro k
  rw [region_getElem?]
  by_cases hk : k < L.length
  · rw [if_pos hk, writeBytesAt_getElem?]
    rw [if_pos (show pos ≤ pos + k ∧ pos + k < pos + L.length by omega)]
    rw [if_pos (show pos + k < buf.length by omega)]
    have hsub : pos + k - pos = k := by omega
    rw [hsub, List.getElem?_eq_getElem hk, List.getD_eq_getElem L 0 hk]
  · rw [if_neg hk, List.getElem?_eq_none (by omega : L.length ≤ k)]

/-- Number of decimal digits a writer emits for `n` (1 for zero). -/
def lenDec (n : Nat) : Nat :=
  if n = 0 then 1 else (Nat.digits 10 n).length

/-- ASCII decimal representation of `n`, most significant digit first. -/
def decRepr (n : Nat) : List Nat :=
  if n = 0 then [48] else (Nat.digits 10 n).reverse.map (fun d => d + 48)

theorem decRepr_length (n : Nat) : (decRepr n).length = lenDec n := by
  by_cases h : n = 0 <;> simp [decRepr, lenDec, h]

theorem decRepr_lt10 (n : Nat) (h : n < 10) : decRepr n = [n + 48] := by
  by_cases h0 : n = 0
  · simp [decRepr, h0]
  · rw [decRepr, if_neg h0, Nat.digits_of_lt 10 n h0 h]
    rfl

theorem decRepr_lt100 (n : Nat) (h1 : 10 ≤ n) (h2 : n < 100) :
    decRepr n = [n / 10 + 48, n % 10 + 48] := by
  have h0 : n ≠ 0 := by omega
  have hd : Nat.digits 10 n = [n % 10, n / 10] := by
    rw [Nat.digits_def' (by norm_num : 1 < 10) (by omega : 0 < n),
      Nat.digits_of_lt 10 (n / 10) (by omega) (by omega)]
  rw [decRepr, if_neg h0, hd]
  rfl

theorem decRepr_ge100 (n : Nat) (h : 100 ≤ n) :
    decRepr n = decRepr (n / 100) ++ [n % 100 / 10 + 48, n % 100 % 10 + 48] := by
  have hd : Nat.digits 10 n = n % 10 :: (n / 10) % 10 :: Nat.digits 10 (n / 100) := by
    rw [Nat.digits_def' (by norm_num : 1 < 10) (by omega : 0 < n),
      Nat.digits_def' (by norm_num : 1 < 10) (by omega : 0 < n / 10),
      Nat.div_div_eq_div_mul]
  have e1 : (n / 10) % 10 = n % 100 / 10 := by omega
  have e2 : n % 10 = n % 100 % 10 := by omega
  rw [decRepr, if_neg (by omega : ¬ n = 0), hd, decRepr, if_neg (by omega : ¬ n / 100 = 0)]
  simp [e1, e2]

theorem lenDec_div100 (n : Nat) (h : 100 ≤ n) : lenDec n = lenDec (n / 100) + 2 := by
  have := decRepr_length n
  rw [decRepr_ge100 n h] at this
  simp only [List.length_append, decRepr_length, List.length_cons, List.length_nil] at this
  omega

theorem lenDec_lt10 (n : Nat) (h : n < 10) : lenDec n = 1 := by
  have := decRepr_length n
  rw [decRepr_lt10 n h] at this
  simpa using this.symm

theorem lenDec_lt100 (n : Nat) (h1 : 10 ≤ n) (h2 : n < 100) : lenDec n = 2 := by
  have := decRepr_length n
  rw [decRepr_lt100 n h1 h2] at this
  simpa using this.symm

theorem decRepr_mem (n : Nat) (b : Nat) (hb : b ∈ decRepr n) : 48 ≤ b ∧ b ≤ 57 := by
  by_cases h0 : n = 0
  · simp [decRepr, h0] at hb
    omega
  · rw [decRepr, if_neg h0] at hb
    simp only [List.mem_map, List.mem_reverse] at hb
    obtain ⟨d, hd, rfl⟩ := hb
    have := Nat.digits_lt_base (by norm_num : 1 < 10) hd
    omega

theorem digit_pairs_getD : ∀ r < 100,
    DIGIT_PAIRS.getD (r * 2) 0 = r / 10 + 48 ∧ DIGIT_PAIRS.getD (r * 2 + 1) 0 = r % 10 + 48 := by
  decide

theorem writePair_eq (buf : List Nat) (i r : Nat) (h : r < 100) :
    writePair buf i r = writeBytesAt buf i [r / 10 + 48, r % 10 + 48] := by
  have hp := digit_pairs_getD r h
  unfold writePair
  rw [hp.1, hp.2]
  simp [writeBytesAt]

theorem writeBack_eq (n : Nat) : ∀ (buf : List Nat) (i : Nat), lenDec n ≤ i →
    writeBack buf i n = writeBytesAt buf (i - lenDec n) (decRepr n) := by
  induction n using Nat.strong_induction_on with
  | _ n ih =>
    intro buf i hi
    by_cases h100 : 100 ≤ n
    · have hlt : n / 100 < n := Nat.div_lt_self (by omega) (by omega)
      have hlen : lenDec n = lenDec (n / 100) + 2 := lenDec_div100 n h100
      rw [writeBack, if_pos h100,
        ih (n / 100) hlt (writePair buf (i - 2) (n % 100)) (i - 2) (by omega),
        writePair_eq buf (i - 2) (n % 100) (by omega),
        decRepr_ge100 n h100,
        writeBytesAt_append]
      have e1 : i - 2 - lenDec (n / 100) = i - lenDec n := by omega
      have e2 : i - lenDec n + (decRepr (n / 100)).length = i - 2 := by
        rw [decRepr_length]; omega
      rw [e1, e2, writeBytesAt_comm _ _ buf (i - lenDec n) (i - 2)
        (by rw [decRepr_length]; omega)]
    · by_cases h10 : n < 10
      · rw [writeBack, if_neg h100, if_pos h10, decRepr_lt10 n h10, lenDec_lt10 n h10]
        simp [writeBytesAt]
      · rw [writeBack, if_neg h100, if_neg h10,
          writePair_eq buf (i - 2) n (by omega),
          decRepr_lt100 n (by omega) (by omega), lenDec_lt100 n (by omega) (by omega)]

/-- Value of an all-digit ASCII byte list under the readers' accumulator. -/
def valA (L : List Nat) (acc : Nat) : Nat :=
  L.foldl (fun a b => a * 10 + (b - 48)) acc

theorem valA_ge (L : List Nat) : ∀ acc : Nat, acc ≤ valA L acc := by
  induction L with
  | nil => intro acc; exact Nat.le_refl acc
  | cons b rest ih =>
    intro acc
    calc acc ≤ acc * 10 + (b - 48) := by omega
    _ ≤ valA rest (acc * 10 + (b - 48)) := ih _

theorem readU_all_digits (m : Nat) (L : List Nat) : ∀ acc : Nat,
    (∀ b ∈ L, is_digit b = true) → valA L acc < m → readU m L acc = valA L acc := by
  induction L with
  | nil => intro acc _ _; rfl
  | cons b rest ih =>
    intro acc hdig hlt
    have hb : is_digit b = true := hdig b (by simp)
    have hstep : valA (b :: rest) acc = valA rest (acc * 10 + (b - 48)) := rfl
    have hle : acc * 10 + (b - 48) ≤ valA rest (acc * 10 + (b - 48)) := valA_ge rest _
    rw [readU, if_pos hb, Nat.mod_eq_of_lt (by rw [hstep] at hlt; omega)]
    rw [hstep] at hlt ⊢
    exact ih _ (fun x hx => hdig x (by simp [hx])) hlt

theorem valA_rev_map (D : List Nat) : ∀ acc : Nat,
    valA (D.reverse.map (fun d => d + 48)) acc = acc * 10 ^ D.length + Nat.ofDigits 10 D := by
  induction D with
  | nil => intro acc; simp [valA, Nat.ofDigits]
  | cons d tl ih =>
    intro acc
    have hrev : (d :: tl).reverse.map (fun x => x + 48) =
        tl.reverse.map (fun x => x + 48) ++ [d + 48] := by simp
    rw [hrev]
    have happ : valA (tl.reverse.map (fun x => x + 48) ++ [d + 48]) acc =
        valA [d + 48] (valA (tl.reverse.map (fun x => x + 48)) acc) := by
      simp [valA, List.foldl_append]
    rw [happ, ih acc]
    have hv : ∀ a : Nat, valA [d + 48] a = a * 10 + d := by
      intro a
      simp [valA]
    rw [hv, Nat.ofDigits_cons, List.length_cons, pow_succ]
    ring

theorem valA_decRepr (n : Nat) : valA (decRepr n) 0 = n := by
  by_cases h0 : n = 0
  · simp [decRepr, h0, valA]
  · rw [decRepr, if_neg h0, valA_rev_map, Nat.ofDigits_digits]
    ring

theorem readU_decRepr (m n : Nat) (h : n < m) : readU m (decRepr n) 0 = n := by
  rw [readU_all_digits m (decRepr n) 0
    (fun b hb => by have := decRepr_mem n b hb; simp [is_digit]; omega)
    (by rw [valA_decRepr]; exact h)]
  exact valA_decRepr n

theorem lenDec_eq_of (n k : Nat) (hk : 1 ≤ k) (h1 : 10 ^ (k - 1) ≤ n) (h2 : n < 10 ^ k) :
    lenDec n = k := by
  have hp : 0 < 10 ^ (k - 1) := Nat.pos_pow_of_pos _ (by norm_num)
  have hn : n ≠ 0 := by omega
  rw [lenDec, if_neg hn, Nat.digits_len 10 n (by norm_num) hn]
  have hlog : Nat.log 10 n = k - 1 := by
    apply Nat.log_eq_of_pow_le_of_lt_pow h1
    rw [show k - 1 + 1 = k by omega]
    exact h2
  omega

theorem lenDec_le (n k : Nat) (hk : 1 ≤ k) (h : n < 10 ^ k) : lenDec n ≤ k := by
  by_cases h0 : n = 0
  · rw [lenDec, if_pos h0]; omega
  · rw [lenDec, if_neg h0]
    have h1 := Nat.base_pow_length_digits_le 10 n (by norm_num) h0
    have h2 : 10 ^ (Nat.digits 10 n).length < 10 ^ (k + 1) := by
      calc 10 ^ (Nat.digits 10 n).length ≤ 10 * n := h1
      _ < 10 * 10 ^ k := by omega
      _ = 10 ^ (k + 1) := by ring
    have := (Nat.pow_lt_pow_iff_right (by norm_num : 1 < 10)).mp h2
    omega

theorem digits_u16_eq (n : Nat) (h : n < 2 ^ 16) : digits_u16 n = lenDec n := by
  unfold digits_u16
  split_ifs with h5 h4 h3 h2
  · exact (lenDec_eq_of n 5 (by norm_num) (by norm_num; omega) (by norm_num; omega)).symm
  · exact (lenDec_eq_of n 4 (by norm_num) (by norm_num; omega) (by norm_num; omega)).symm
  · exact (lenDec_eq_of n 3 (by norm_num) (by norm_num; omega) (by norm_num; omega)).symm
  · exact (lenDec_eq_of n 2 (by norm_num) (by norm_num; omega) (by norm_num; omega)).symm
  · exact (lenDec_lt10 n (by omega)).symm

theorem digits_u32_eq (n : Nat) (h : n < 2 ^ 32) : digits_u32 n = lenDec n := by
  unfold digits_u32
  split_ifs with h10 h9 h8 h7 h6 h5 h4 h3 h2
  · exact (lenDec_eq_of n 10 (by norm_num) (by norm_num; omega) (by norm_num; omega)).symm
  · exact (lenDec_eq_of n 9 (by norm_num) (by norm_num; omega) (by norm_num; omega)).symm
  · exact (lenDec_eq_of n 8 (by norm_num) (by norm_num; omega) (by norm_num; omega)).symm
  · exact (lenDec_eq_of n 7 (by norm_num) (by norm_num; omega) (by norm_num; omega)).symm
  · exact (lenDec_eq_of n 6 (by norm_num) (by norm_num; omega) (by norm_num; omega)).symm
  · exact (lenDec_eq_of n 5 (by norm_num) (by norm_num; omega) (by norm_num; omega)).symm
  · exact (lenDec_eq_of n 4 (by norm_num) (by norm_num; omega) (by norm_num; omega)).symm
  · exact (lenDec_eq_of n 3 (by norm_num) (by norm_num; omega) (by norm_num; omega)).symm
  · exact (lenDec_eq_of n 2 (by norm_num) (by norm_num; omega) (by norm_num; omega)).symm
  · exact (lenDec_lt10 n (by omega)).symm

set_option maxHeartbeats 1600000 in
theorem digits_u64_eq (n : Nat) (h : n < 2 ^ 64) : digits_u64 n = lenDec n := by
  unfold digits_u64
  by_cases h20 : 10000000000000000000 ≤ n
  · rw [if_pos h20]
    exact (lenDec_eq_of n 20 (by norm_num) (by norm_num; omega) (by norm_num; omega)).symm
  rw [if_neg h20]
  by_cases h19 : 1000000000000000000 ≤ n
  · rw [if_pos h19]
    exact (lenDec_eq_of n 19 (by norm_num) (by norm_num; omega) (by norm_num; omega)).symm
  rw [if_neg h19]
  by_cases h18 : 100000000000000000 ≤ n
  · rw [if_pos h18]
    exact (lenDec_eq_of n 18 (by norm_num) (by norm_num; omega) (by norm_num; omega)).symm
  rw [if_neg h18]
  by_cases h17 : 10000000000000000 ≤ n
  · rw [if_pos h17]
    exact (lenDec_eq_of n 17 (by norm_num) (by norm_num; omega) (by norm_num; omega)).symm
  rw [if_neg h17]
  by_cases h16 : 1000000000000000 ≤ n
  · rw [if_pos h16]
    exact (lenDec_eq_of n 16 (by norm_num) (by norm_num; omega) (by norm_num; omega)).symm
  rw [if_neg h16]
  by_cases h15 : 100000000000000 ≤ n
  · rw [if_pos h15]
    exact (lenDec_eq_of n 15 (by norm_num) (by norm_num; omega) (by norm_num; omega)).symm
  rw [if_neg h15]
  by_cases h14 : 10000000000000 ≤ n
  · rw [if_pos h14]
    exact (lenDec_eq_of n 14 (by norm_num) (by norm_num; omega) (by norm_num; omega)).symm
  rw [if_neg h14]
  by_cases h13 : 1000000000000 ≤ n
  · rw [if_pos h13]
    exact (lenDec_eq_of n 13 (by norm_num) (by norm_num; omega) (by norm_num; omega)).symm
  rw [if_neg h13]
  by_cases h12 : 100000000000 ≤ n
  · rw [if_pos h12]
    exact (lenDec_eq_of n 12 (by norm_num) (by norm_num; omega) (by norm_num; omega)).symm
  rw [if_neg h12]
  by_cases h11 : 10000000000 ≤ n
  · rw [if_pos h11]
    exact (lenDec_eq_of n 11 (by norm_num) (by norm_num; omega) (by norm_num; omega)).symm
  rw [if_neg h11]
  by_cases h10 : 1000000000 ≤ n
  · rw [if_pos h10]
    exact (lenDec_eq_of n 10 (by norm_num) (by norm_num; omega) (by norm_num; omega)).symm
  rw [if_neg h10]
  by_cases h9 : 100000000 ≤ n
  · rw [if_pos h9]
    exact (lenDec_eq_of n 9 (by norm_num) (by norm_num; omega) (by norm_num; omega)).symm
  rw [if_neg h9]
  by_cases h8 : 10000000 ≤ n
  · rw [if_pos h8]
    exact (lenDec_eq_of n 8 (by norm_num) (by norm_num; omega) (by norm_num; omega)).symm
  rw [if_neg h8]
  by_cases h7 : 1000000 ≤ n
  · rw [if_pos h7]
    exact (lenDec_eq_of n 7 (by norm_num) (by norm_num; omega) (by norm_num; omega)).symm
  rw [if_neg h7]
  by_cases h6 : 100000 ≤ n
  · rw [if_pos h6]
    exact (lenDec_eq_of n 6 (by norm_num) (by norm_num; omega) (by norm_num; omega)).symm
  rw [if_neg h6]
  by_cases h5 : 10000 ≤ n
  · rw [if_pos h5]
    exact (lenDec_eq_of n 5 (by norm_num) (by norm_num; omega) (by norm_num; omega)).symm
  rw [if_neg h5]
  by_cases h4 : 1000 ≤ n
  · rw [if_pos h4]
    exact (lenDec_eq_of n 4 (by norm_num) (by norm_num; omega) (by norm_num; omega)).symm
  rw [if_neg h4]
  by_cases h3 : 100 ≤ n
  · rw [if_pos h3]
    exact (lenDec_eq_of n 3 (by norm_num) (by norm_num; omega) (by norm_num; omega)).symm
  rw [if_neg h3]
  by_cases h2 : 10 ≤ n
  · rw [if_pos h2]
    exact (lenDec_eq_of n 2 (by norm_num) (by norm_num; omega) (by norm_num; omega)).symm
  rw [if_neg h2]
  exact (lenDec_lt10 n (by omega)).symm

theorem decRepr_ne_nil (n : Nat) : decRepr n ≠ [] := by
  intro h
  have := decRepr_length n
  rw [h] at this
  simp [lenDec] at this
  by_cases h0 : n = 0 <;> simp [h0] at this
  exact Nat.digits_ne_nil_iff_ne_zero.mpr h0 (List.length_eq_zero.mp this.symm)

theorem toI_id (w u : Nat) (h : u < 2 ^ (w - 1)) : toI w u = (u : Int) := by
  rw [toI, if_pos h]

theorem wrapI_id (w : Nat) (x : Int) (hw : 1 ≤ w)
    (h1 : -(2 ^ (w - 1)) ≤ x) (h2 : x < 2 ^ (w - 1)) : wrapI w x = x := by
  have h2w : (2 : Int) ^ w = 2 ^ (w - 1) * 2 := by
    rw [← pow_succ]
    congr 1
    omega
  unfold wrapI
  rw [Int.emod_eq_of_lt (by linarith) (by linarith)]
  ring

theorem region_write_u16 (buf : List Nat) (pos n : Nat) (h : n < 2 ^ 16)
    (hcap : pos + 5 ≤ buf.length) :
    region (write_u16 buf pos n).1 pos (write_u16 buf pos n).2 = decRepr n := by
  have hle : lenDec n ≤ 5 := lenDec_le n 5 (by norm_num) (by norm_num; omega)
  unfold write_u16
  rw [digits_u16_eq n h, writeBack_eq n buf (pos + lenDec n) (by omega),
    show pos + lenDec n - lenDec n = pos by omega, ← decRepr_length n]
  exact region_writeBytesAt buf pos (decRepr n) (by rw [decRepr_length]; omega)

theorem region_write_u32 (buf : List Nat) (pos n : Nat) (h : n < 2 ^ 32)
    (hcap : pos + 10 ≤ buf.length) :
    region (write_u32 buf pos n).1 pos (write_u32 buf pos n).2 = decRepr n := by
  have hle : lenDec n ≤ 10 := lenDec_le n 10 (by norm_num) (by norm_num; omega)
  unfold write_u32
  rw [digits_u32_eq n h, writeBack_eq n buf (pos + lenDec n) (by omega),
    show pos + lenDec n - lenDec n = pos by omega, ← decRepr_length n]
  exact region_writeBytesAt buf pos (decRepr n) (by rw [decRepr_length]; omega)

theorem region_write_u64 (buf : List Nat) (pos n : Nat) (h : n < 2 ^ 64)
    (hcap : pos + 20 ≤ buf.length) :
    region (write_u64 buf pos n).1 pos (write_u64 buf pos n).2 = decRepr n := by
  have hle : lenDec n ≤ 20 := lenDec_le n 20 (by norm_num) (by norm_num; omega)
  unfold write_u64
  rw [digits_u64_eq n h, writeBack_eq n buf (pos + lenDec n) (by omega),
    show pos + lenDec n - lenDec n = pos by omega, ← decRepr_length n]
  exact region_writeBytesAt buf pos (decRepr n) (by rw [decRepr_length]; omega)

theorem read_write_u16 (buf : List Nat) (pos n : Nat) (h : n < 2 ^ 16)
    (hcap : pos + 5 ≤ buf.length) :
    read_u16 (region (write_u16 buf pos n).1 pos (write_u16 buf pos n).2) = n := by
  rw [region_write_u16 buf pos n h hcap]
  exact readU_decRepr (2 ^ 16) n h

theorem read_write_u32 (buf : List Nat) (pos n : Nat) (h : n < 2 ^ 32)
    (hcap : pos + 10 ≤ buf.length) :
    read_u32 (region (write_u32 buf pos n).1 pos (write_u32 buf pos n).2) = n := by
  rw [region_write_u32 buf pos n h hcap]
  exact readU_decRepr (2 ^ 32) n h

theorem read_write_u64 (buf : List Nat) (pos n : Nat) (h : n < 2 ^ 64)
    (hcap : pos + 20 ≤ buf.length) :
    read_u64 (region (write_u64 buf pos n).1 pos (write_u64 buf pos n).2) = n := by
  rw [region_write_u64 buf pos n h hcap]
  exact readU_decRepr (2 ^ 64) n h

theorem region_write_neg_core (buf : List Nat) (pos m cap : Nat)
    (hm : lenDec m ≤ cap) (hcap : pos + 1 + cap ≤ buf.length) :
    region (writeBack (buf.set pos 45) (pos + 1 + lenDec m) m) pos (1 + lenDec m) =
      45 :: decRepr m := by
  have h1 : buf.set pos 45 = writeBytesAt buf pos [45] := by simp [writeBytesAt]
  have hA := writeBytesAt_append [45] (decRepr m) buf pos
  simp only [List.length_cons, List.length_nil, List.singleton_append, Nat.zero_add] at hA
  rw [writeBack_eq m _ (pos + 1 + lenDec m) (by omega),
    show pos + 1 + lenDec m - lenDec m = pos + 1 by omega, h1, ← hA]
  have hlen : (45 :: decRepr m).length = 1 + lenDec m := by
    simp [decRepr_length]
    omega
  rw [← hlen]
  exact region_writeBytesAt buf pos (45 :: decRepr m) (by rw [hlen]; omega)

theorem read_i16_cons (b : Nat) (rest : List Nat) :
    read_i16 (b :: rest) =
      if b = 45 then
        (if read_u16 rest = 2 ^ 15 then -(2 ^ 15) else wrapI 16 (-(read_u16 rest : Int)))
      else toI 16 (read_u16 (b :: rest)) := rfl

theorem read_i32_cons (b : Nat) (rest : List Nat) :
    read_i32 (b :: rest) =
      if b = 45 then
        (if read_u32 rest = 2 ^ 31 then -(2 ^ 31) else wrapI 32 (-(read_u32 rest : Int)))
      else toI 32 (read_u32 (b :: rest)) := rfl

theorem read_i64_cons (b : Nat) (rest : List Nat) :
    read_i64 (b :: rest) =
      if b = 45 then
        (if read_u64 rest = 2 ^ 63 then -(2 ^ 63) else wrapI 64 (-(toI 64 (read_u64 rest))))
      else toI 64 (read_u64 (b :: rest)) := rfl

theorem read_write_i16 (buf : List Nat) (pos : Nat) (n : Int)
    (h1 : -(2 ^ 15) ≤ n) (h2 : n < 2 ^ 15) (hcap : pos + 6 ≤ buf.length) :
    read_i16 (region (write_i16 buf pos n).1 pos (write_i16 buf pos n).2) = n := by
  by_cases hnn : 0 ≤ n
  · rw [write_i16, if_pos hnn]
    have hlt : n.toNat < 2 ^ 16 := by omega
    rw [region_write_u16 buf pos n.toNat hlt (by omega)]
    obtain ⟨b, rest, hbr⟩ := List.exists_cons_of_ne_nil (decRepr_ne_nil n.toNat)
    have hb := decRepr_mem n.toNat b (by rw [hbr]; simp)
    rw [hbr, read_i16_cons, if_neg (by omega), ← hbr,
      show read_u16 (decRepr n.toNat) = n.toNat from readU_decRepr (2 ^ 16) n.toNat hlt,
      toI_id 16 n.toNat (by norm_num; omega)]
    omega
  · by_cases hmin : n = -(2 ^ 15)
    · rw [write_i16, if_neg hnn, if_pos hmin]
      have h45 : buf.set pos 45 = writeBytesAt buf pos [45] := by simp [writeBytesAt]
      have hA := writeBytesAt_append [45] [51, 50, 55, 54, 56] buf pos
      simp only [List.length_cons, List.length_nil, List.singleton_append, Nat.zero_add] at hA
      rw [h45, ← hA,
        show (6 : Nat) = ([45, 51, 50, 55, 54, 56] : List Nat).length by rfl,
        region_writeBytesAt buf pos [45, 51, 50, 55, 54, 56] (by simp; omega), hmin]
      decide
    · rw [write_i16, if_neg hnn, if_neg hmin, write_u16]
      have hm1 : 1 ≤ (-n).toNat := by omega
      have hmlt : (-n).toNat < 2 ^ 15 := by omega
      have hlenm : lenDec (-n).toNat ≤ 5 :=
        lenDec_le (-n).toNat 5 (by norm_num) (by norm_num; omega)
      rw [digits_u16_eq (-n).toNat (by omega)]
      show read_i16 (region (writeBack (buf.set pos 45) (pos + 1 + lenDec (-n).toNat)
        (-n).toNat) pos (1 + lenDec (-n).toNat)) = n
      rw [region_write_neg_core buf pos (-n).toNat 5 hlenm (by omega)]
      rw [read_i16_cons, if_pos rfl,
        show read_u16 (decRepr (-n).toNat) = (-n).toNat from
          readU_decRepr (2 ^ 16) (-n).toNat (by omega),
        if_neg (by omega : ¬ (-n).toNat = 2 ^ 15),
        wrapI_id 16 (-((-n).toNat : Int)) (by norm_num) (by norm_num; omega) (by norm_num; omega)]
      omega

theorem read_write_i32 (buf : List Nat) (pos : Nat) (n : Int)
    (h1 : -(2 ^ 31) ≤ n) (h2 : n < 2 ^ 31) (hcap : pos + 11 ≤ buf.length) :
    read_i32 (region (write_i32 buf pos n).1 pos (write_i32 buf pos n).2) = n := by
  by_cases hnn : 0 ≤ n
  · rw [write_i32, if_pos hnn]
    have hlt : n.toNat < 2 ^ 32 := by omega
    rw [region_write_u32 buf pos n.toNat hlt (by omega)]
    obtain ⟨b, rest, hbr⟩ := List.exists_cons_of_ne_nil (decRepr_ne_nil n.toNat)
    have hb := decRepr_mem n.toNat b (by rw [hbr]; simp)
    rw [hbr, read_i32_cons, if_neg (by omega), ← hbr,
      show read_u32 (decRepr n.toNat) = n.toNat from readU_decRepr (2 ^ 32) n.toNat hlt,
      toI_id 32 n.toNat (by norm_num; omega)]
    omega
  · by_cases hmin : n = -(2 ^ 31)
    · rw [write_i32, if_neg hnn, if_pos hmin]
      have h45 : buf.set pos 45 = writeBytesAt buf pos [45] := by simp [writeBytesAt]
      have hA := writeBytesAt_append [45] [50, 49, 52, 55, 52, 56, 51, 54, 52, 56] buf pos
      simp only [List.length_cons, List.length_nil, List.singleton_append, Nat.zero_add] at hA
      rw [h45, ← hA,
        show (11 : Nat) = ([45, 50, 49, 52, 55, 52, 56, 51, 54, 52, 56] : List Nat).length by rfl,
        region_writeBytesAt buf pos [45, 50, 49, 52, 55, 52, 56, 51, 54, 52, 56]
          (by simp; omega), hmin]
      decide
    · rw [write_i32, if_neg hnn, if_neg hmin, write_u32]
      have hm1 : 1 ≤ (-n).toNat := by omega
      have hmlt : (-n).toNat < 2 ^ 31 := by omega
      have hlenm : lenDec (-n).toNat ≤ 10 :=
        lenDec_le (-n).toNat 10 (by norm_num) (by norm_num; omega)
      rw [digits_u32_eq (-n).toNat (by omega)]
      show read_i32 (region (writeBack (buf.set pos 45) (pos + 1 + lenDec (-n).toNat)
        (-n).toNat) pos (1 + lenDec (-n).toNat)) = n
      rw [region_write_neg_core buf pos (-n).toNat 10 hlenm (by omega)]
      rw [read_i32_cons, if_pos rfl,
        show read_u32 (decRepr (-n).toNat) = (-n).toNat from
          readU_decRepr (2 ^ 32) (-n).toNat (by omega),
        if_neg (by omega : ¬ (-n).toNat = 2 ^ 31),
        wrapI_id 32 (-((-n).toNat : Int)) (by norm_num) (by norm_num; omega) (by norm_num; omega)]
      omega

theorem read_write_i64 (buf : List Nat) (pos : Nat) (n : Int)
    (h1 : -(2 ^ 63) ≤ n) (h2 : n < 2 ^ 63) (hcap : pos + 21 ≤ buf.length) :
    read_i64 (region (write_i64 buf pos n).1 pos (write_i64 buf pos n).2) = n := by
  by_cases hnn : 0 ≤ n
  · rw [write_i64, if_pos hnn]
    have hlt : n.toNat < 2 ^ 64 := by omega
    rw [region_write_u64 buf pos n.toNat hlt (by omega)]
    obtain ⟨b, rest, hbr⟩ := List.exists_cons_of_ne_nil (decRepr_ne_nil n.toNat)
    have hb := decRepr_mem n.toNat b (by rw [hbr]; simp)
    rw [hbr, read_i64_cons, if_neg (by omega), ← hbr,
      show read_u64 (decRepr n.toNat) = n.toNat from readU_decRepr (2 ^ 64) n.toNat hlt,
      toI_id 64 n.toNat (by norm_num; omega)]
    omega
  · by_cases hmin : n = -(2 ^ 63)
    · rw [write_i64, if_neg hnn, if_pos hmin]
      have h45 : buf.set pos 45 = writeBytesAt buf pos [45] := by simp [writeBytesAt]
      have hA := writeBytesAt_append [45]
        [57, 50, 50, 51, 51, 55, 50, 48, 51, 54, 56, 53, 52, 55, 55, 53, 56, 48, 56] buf pos
      simp only [List.length_cons, List.length_nil, List.singleton_append, Nat.zero_add] at hA
      rw [h45, ← hA,
        show (20 : Nat) = ([45, 57, 50, 50, 51, 51, 55, 50, 48, 51, 54, 56, 53, 52, 55, 55,
          53, 56, 48, 56] : List Nat).length by rfl,
        region_writeBytesAt buf pos [45, 57, 50, 50, 51, 51, 55, 50, 48, 51, 54, 56, 53, 52,
          55, 55, 53, 56, 48, 56] (by simp; omega), hmin]
      decide
    · rw [write_i64, if_neg hnn, if_neg hmin, write_u64]
      have hm1 : 1 ≤ (-n).toNat := by omega
      have hmlt : (-n).toNat < 2 ^ 63 := by omega
      have hlenm : lenDec (-n).toNat ≤ 20 :=
        lenDec_le (-n).toNat 20 (by norm_num) (by norm_num; omega)
      rw [digits_u64_eq (-n).toNat (by omega)]
      show read_i64 (region (writeBack (buf.set pos 45) (pos + 1 + lenDec (-n).toNat)
        (-n).toNat) pos (1 + lenDec (-n).toNat)) = n
      rw [region_write_neg_core buf pos (-n).toNat 20 hlenm (by omega)]
      rw [read_i64_cons, if_pos rfl,
        show read_u64 (decRepr (-n).toNat) = (-n).toNat from
          readU_decRepr (2 ^ 64) (-n).toNat (by omega),
        if_neg (by omega : ¬ (-n).toNat = 2 ^ 63),
        toI_id 64 (-n).toNat (by norm_num; omega),
        wrapI_id 64 (-((-n).toNat : Int)) (by norm_num) (by norm_num; omega) (by norm_num; omega)]
      omega

/-- C1: Round-trip of the integer codecs.  For every unsigned value
representable in the width of u16/u32/u64, reading back exactly the
`bytes_written` bytes that the writer placed at `pos` yields the value
again; the same holds for every representable i16/i32/i64 value,
including each type's minimum value.  The capacity hypotheses are the
documented caller contracts of the writers. -/
theorem C1_integer_roundtrip :
    (∀ (buf : List Nat) (pos n : Nat), n < 2 ^ 16 → pos + 5 ≤ buf.length →
      read_u16 (region (write_u16 buf pos n).1 pos (write_u16 buf pos n).2) = n) ∧
    (∀ (buf : List Nat) (pos n : Nat), n < 2 ^ 32 → pos + 10 ≤ buf.length →
      read_u32 (region (write_u32 buf pos n).1 pos (write_u32 buf pos n).2) = n) ∧
    (∀ (buf : List Nat) (pos n : Nat), n < 2 ^ 64 → pos + 20 ≤ buf.length →
      read_u64 (region (write_u64 buf pos n).1 pos (write_u64 buf pos n).2) = n) ∧
    (∀ (buf : List Nat) (pos : Nat) (n : Int), -(2 ^ 15) ≤ n → n < 2 ^ 15 →
      pos + 6 ≤ buf.length →
      read_i16 (region (write_i16 buf pos n).1 pos (write_i16 buf pos n).2) = n) ∧
    (∀ (buf : List Nat) (pos : Nat) (n : Int), -(2 ^ 31) ≤ n → n < 2 ^ 31 →
      pos + 11 ≤ buf.length →
      read_i32 (region (write_i32 buf pos n).1 pos (write_i32 buf pos n).2) = n) ∧
    (∀ (buf : List Nat) (pos : Nat) (n : Int), -(2 ^ 63) ≤ n → n < 2 ^ 63 →
      pos + 21 ≤ buf.length →
      read_i64 (region (write_i64 buf pos n).1 pos (write_i64 buf pos n).2) = n) :=
  ⟨read_write_u16, read_write_u32, read_write_u64,
    read_write_i16, read_write_i32, read_write_i64⟩

/-- Witness for C1: the u16 round-trip at value 60000 and, for the signed
minimum, the i64 round-trip at the minimum value, on concrete buffers. -/
theorem C1_integer_roundtrip_witness :
    read_u16 (region (write_u16 (List.replicate 8 0) 1 60000).1 1
      (write_u16 (List.replicate 8 0) 1 60000).2) = 60000 ∧
    read_i64 (region (write_i64 (List.replicate 30 0) 0 (-(2 ^ 63))).1 0
      (write_i64 (List.replicate 30 0) 0 (-(2 ^ 63))).2) = -(2 ^ 63) :=
  ⟨C1_integer_roundtrip.1 (List.replicate 8 0) 1 60000 (by norm_num) (by simp),
   C1_integer_roundtrip.2.2.2.2.2 (List.replicate 30 0) 0 (-(2 ^ 63)) (by norm_num)
     (by norm_num) (by simp)⟩

/-- The unsigned readers as the specification words them: fold the wrapping
accumulator `acc * 10 + digit mod m` over the longest all-digit prefix of
the input, starting from 0. -/
def readU_spec (m : Nat) (buf : List Nat) : Nat :=
  (buf.takeWhile fun b => is_digit b).foldl (fun acc b => (acc * 10 + (b - 48)) % m) 0

theorem readU_eq_spec (m : Nat) (L : List Nat) : ∀ acc : Nat,
    readU m L acc = (L.takeWhile fun b => is_digit b).foldl
      (fun acc b => (acc * 10 + (b - 48)) % m) acc := by
  induction L with
  | nil => intro acc; rfl
  | cons b rest ih =>
    intro acc
    by_cases hb : is_digit b
    · rw [readU, if_pos hb, ih, List.takeWhile_cons_of_pos hb]
      rfl
    · rw [readU, if_neg hb, List.takeWhile_cons_of_neg (by simpa using hb)]
      rfl

/-- C2: each unsigned reader scans from the start of its input, accumulates
`acc = acc * 10 + digit` wrapping modulo 2^width, stops at the first
non-digit byte or at the end of input, and returns 0 for empty input; it is
total (no error path), and on overflow the result silently wraps, as the
concrete input `65536` (which reads back as 0 through `read_u16`) shows. -/
theorem C2_unsigned_reader_scan :
    (∀ buf : List Nat, read_u16 buf = readU_spec (2 ^ 16) buf) ∧
    (∀ buf : List Nat, read_u32 buf = readU_spec (2 ^ 32) buf) ∧
    (∀ buf : List Nat, read_u64 buf = readU_spec (2 ^ 64) buf) ∧
    read_u16 [] = 0 ∧
    read_u16 [49, 50, 51, 97, 98, 99] = 123 ∧
    read_u16 [54, 53, 53, 51, 54] = 0 :=
  ⟨fun buf => readU_eq_spec (2 ^ 16) buf 0,
   fun buf => readU_eq_spec (2 ^ 32) buf 0,
   fun buf => readU_eq_spec (2 ^ 64) buf 0,
   rfl, by decide, by decide⟩

/-- The four zero-padded ASCII decimal digits of a value, most significant
first (thousands, hundreds, tens, units), as the spec words the BodyLength
field. -/
def digit4 (v : Nat) : List Nat :=
  [48 + v / 1000 % 10, 48 + v / 100 % 10, 48 + v / 10 % 10, 48 + v % 10]

theorem update_body_length_eq (buffer : List Nat) (m : Nat) :
    update_body_length buffer m =
      writeBytesAt buffer 12 (digit4 ((m + 2 ^ 64 - 17) % 2 ^ 64 % 2 ^ 16)) := by
  simp [update_body_length, digit4, writeBytesAt, BODY_LENGTH_VALUE_POS]

theorem region_update_body_length (buffer : List Nat) (m : Nat)
    (h : 16 ≤ buffer.length) :
    region (update_body_length buffer m) 12 4 =
      digit4 ((m + 2 ^ 64 - 17) % 2 ^ 64 % 2 ^ 16) := by
  rw [update_body_length_eq,
    show (4 : Nat) = (digit4 ((m + 2 ^ 64 - 17) % 2 ^ 64 % 2 ^ 16)).length from rfl]
  exact region_writeBytesAt buffer 12 _ (by simp [digit4]; omega)

/-- C3: for every end position (at least the 17-byte preamble),
`update_body_length` writes, at offset 12, exactly the four zero-padded
decimal digits of `(end_position - 17)` truncated to 16 bits; every byte
of the field is an ASCII digit even when the length exceeds 9999, and at
`end_position = 59` the field reads `0042`. -/
theorem C3_body_length_patch (buffer : List Nat) (m : Nat)
    (hbuf : 16 ≤ buffer.length) (hm : 17 ≤ m) (hm2 : m < 2 ^ 64) :
    region (update_body_length buffer m) 12 4 = digit4 ((m - 17) % 2 ^ 16) ∧
    (∀ b ∈ region (update_body_length buffer m) 12 4, 48 ≤ b ∧ b ≤ 57) ∧
    region (update_body_length buffer 59) 12 4 = [48, 48, 52, 50] := by
  have hb : (m + 2 ^ 64 - 17) % 2 ^ 64 % 2 ^ 16 = (m - 17) % 2 ^ 16 := by omega
  refine ⟨?_, ?_, ?_⟩
  · rw [region_update_body_length buffer m hbuf, hb]
  · intro b hbmem
    rw [region_update_body_length buffer m hbuf] at hbmem
    simp [digit4] at hbmem
    rcases hbmem with h | h | h | h <;> omega
  · rw [region_update_body_length buffer 59 hbuf]
    norm_num [digit4]

/-- Witness for C3 on a concrete 20-byte buffer and end position 59. -/
theorem C3_body_length_patch_witness :
    region (update_body_length (List.replicate 20 0) 59) 12 4 =
      digit4 ((59 - 17) % 2 ^ 16) :=
  (C3_body_length_patch (List.replicate 20 0) 59 (by simp) (by norm_num)
    (by norm_num)).1

/-- C9: `update_body_length` modifies only the four bytes at indices 12-15;
the buffer keeps its length and every byte outside 12-15 is unchanged. -/
theorem C9_body_length_frame (buffer : List Nat) (m : Nat)
    (hbuf : 16 ≤ buffer.length) (hm : 17 ≤ m) :
    (update_body_length buffer m).length = buffer.length ∧
    ∀ k, k < 12 ∨ 16 ≤ k → (update_body_length buffer m)[k]? = buffer[k]? := by
  constructor
  · rw [update_body_length_eq, writeBytesAt_length]
  · intro k hk
    rw [update_body_length_eq, writeBytesAt_getElem?]
    rw [if_neg (by simp [digit4]; omega)]

/-- Witness for C9 on a concrete buffer: the length is preserved and the
first byte is untouched. -/
theorem C9_body_length_frame_witness :
    (update_body_length (List.replicate 20 7) 59).length =
      (List.replicate 20 7 : List Nat).length ∧
    (update_body_length (List.replicate 20 7) 59)[0]? =
      (List.replicate 20 7 : List Nat)[0]? :=
  ⟨(C9_body_length_frame (List.replicate 20 7) 59 (by simp) (by norm_num)).1,
   (C9_body_length_frame (List.replicate 20 7) 59 (by simp) (by norm_num)).2 0
     (by omega)⟩

theorem forge_out_buffer_eq (v : List Nat) :
    forge_out_buffer v = writeBytesAt (List.replicate 1024 0) 0
      ([56, 61] ++ v ++ [1, 57, 61, 48, 48, 48, 48, 1, 51, 53, 61]) := by
  have h1 := writeBytesAt_append ([56, 61] ++ v)
    [1, 57, 61, 48, 48, 48, 48, 1, 51, 53, 61] (List.replicate 1024 0) 0
  have h2 := writeBytesAt_append [56, 61] v (List.replicate 1024 0) 0
  rw [h1, h2]
  have e1 : 0 + ([56, 61] : List Nat).length = 2 := by simp
  have e2 : 0 + ([56, 61] ++ v).length = 2 + v.length := by simp; omega
  rw [e1, e2]
  rfl

/-- C4: for every version string that fits the template,
`forge_out_buffer` returns the fixed-size 1024-byte buffer whose leading
bytes are exactly `8=` ++ version ++ `SOH 9=0000 SOH 35=` and whose every
remaining byte is zero. -/
theorem C4_forge_template (v : List Nat) (h : v.length + 13 ≤ 1024) :
    (forge_out_buffer v).length = 1024 ∧
    region (forge_out_buffer v) 0 (13 + v.length) =
      [56, 61] ++ v ++ [1, 57, 61, 48, 48, 48, 48, 1, 51, 53, 61] ∧
    ∀ k, 13 + v.length ≤ k → (forge_out_buffer v)[k]? =
      if k < 1024 then some 0 else none := by
  have hlen : ([56, 61] ++ v ++ [1, 57, 61, 48, 48, 48, 48, 1, 51, 53, 61]).length =
      13 + v.length := by
    simp
    omega
  refine ⟨?_, ?_, ?_⟩
  · rw [forge_out_buffer_eq, writeBytesAt_length, List.length_replicate]
  · rw [forge_out_buffer_eq, ← hlen]
    exact region_writeBytesAt _ 0 _ (by rw [hlen, List.length_replicate]; omega)
  · intro k hk
    rw [forge_out_buffer_eq, writeBytesAt_getElem?]
    rw [if_neg (by rw [hlen]; omega), List.getElem?_replicate]

/-- Witness for C4 with the version bytes of `FIX.4.4`. -/
theorem C4_forge_template_witness :
    region (forge_out_buffer [70, 73, 88, 46, 52, 46, 52]) 0 20 =
      [56, 61, 70, 73, 88, 46, 52, 46, 52, 1, 57, 61, 48, 48, 48, 48, 1, 51, 53, 61] ∧
    (forge_out_buffer [70, 73, 88, 46, 52, 46, 52])[100]? = some 0 := by
  have h := C4_forge_template [70, 73, 88, 46, 52, 46, 52] (by norm_num)
  refine ⟨h.2.1, ?_⟩
  have h2 := h.2.2 100 (by norm_num)
  rw [if_pos (by norm_num)] at h2
  exact h2

/-- Spec-side view of the low `len` base-36 digits: position `j` holds the
digit of weight `36 ^ (len - 1 - j)`, i.e. the field is filled from the
least-significant digit backward. -/
def base36Slice (n len : Nat) : List Nat :=
  (List.range len).map fun j => digit36 (n / 36 ^ (len - 1 - j) % 36)

/-- The full 13-character fixed-width base-36 rendering. -/
def base36_repr13 (n : Nat) : List Nat :=
  base36Slice n 13

theorem base36Slice_succ (n k : Nat) :
    base36Slice n (k + 1) = base36Slice (n / 36) k ++ [digit36 (n % 36)] := by
  unfold base36Slice
  rw [List.range_succ, List.map_append]
  congr 1
  · apply List.map_congr_left
    intro j hj
    rw [List.mem_range] at hj
    have e1 : k + 1 - 1 - j = (k - 1 - j) + 1 := by omega
    rw [e1, Nat.div_div_eq_div_mul, ← pow_succ']
  · have e2 : k + 1 - 1 - k = 0 := by omega
    rw [List.map_cons, List.map_nil, e2, pow_zero, Nat.div_one]

theorem base36Slice_length (n len : Nat) : (base36Slice n len).length = len := by
  simp [base36Slice]

theorem encodeLoop_eq (offset : Nat) : ∀ k, k ≤ 13 → ∀ (dst : List Nat) (n : Nat),
    encodeLoop dst offset n (13 - k) = writeBytesAt dst offset (base36Slice n k) := by
  intro k
  induction k with
  | zero =>
    intro _ dst n
    rw [encodeLoop, if_neg (by omega)]
    rfl
  | succ k ih =>
    intro hk dst n
    rw [encodeLoop, if_pos (by omega)]
    have e1 : 13 - (k + 1) + 1 = 13 - k := by omega
    have e2 : offset + 12 - (13 - (k + 1)) = offset + k := by omega
    have e3 : n - n / 36 * 36 = n % 36 := by omega
    rw [e1, e2]
    show encodeLoop (dst.set (offset + k) (digit36 (n - n / 36 * 36))) offset (n / 36)
      (13 - k) = writeBytesAt dst offset (base36Slice n (k + 1))
    rw [e3, ih (by omega), base36Slice_succ, writeBytesAt_append, base36Slice_length]
    have hset : dst.set (offset + k) (digit36 (n % 36)) =
        writeBytesAt dst (offset + k) [digit36 (n % 36)] := by simp [writeBytesAt]
    rw [hset]
    exact writeBytesAt_comm (base36Slice (n / 36) k) [digit36 (n % 36)] dst offset
      (offset + k) (by rw [base36Slice_length])

theorem encodeLoop_full (dst : List Nat) (offset n : Nat) :
    encodeLoop dst offset n 0 = writeBytesAt dst offset (base36_repr13 n) :=
  encodeLoop_eq offset 13 (by omega) dst n

/-- C5: with at least 13 bytes of capacity from `offset`,
`encode_base36_fixed13` returns 13 and writes exactly the 13 base-36
characters of the value (digits then uppercase letters), filled from the
least-significant digit backward, leaving every byte outside the field
untouched; with fewer than 13 bytes it returns 0 and leaves the buffer
entirely unchanged. -/
theorem C5_encode_base36 (dst : List Nat) (offset n : Nat) :
    (13 ≤ dst.length - offset →
      (encode_base36_fixed13 dst offset n).2 = 13 ∧
      (encode_base36_fixed13 dst offset n).1.length = dst.length ∧
      region (encode_base36_fixed13 dst offset n).1 offset 13 = base36_repr13 n ∧
      (∀ b ∈ base36_repr13 n, (48 ≤ b ∧ b ≤ 57) ∨ (65 ≤ b ∧ b ≤ 90)) ∧
      (∀ k, k < offset ∨ offset + 13 ≤ k →
        (encode_base36_fixed13 dst offset n).1[k]? = dst[k]?)) ∧
    (dst.length - offset < 13 →
      (encode_base36_fixed13 dst offset n).2 = 0 ∧
      (encode_base36_fixed13 dst offset n).1 = dst) := by
  constructor
  · intro hcap
    rw [encode_base36_fixed13, if_neg (by omega)]
    refine ⟨rfl, ?_, ?_, ?_, ?_⟩
    · rw [encodeLoop_full, writeBytesAt_length]
    · rw [encodeLoop_full,
        show (13 : Nat) = (base36_repr13 n).length from (base36Slice_length n 13).symm]
      exact region_writeBytesAt dst offset _
        (by rw [base36_repr13, base36Slice_length]; omega)
    · intro b hb
      simp only [base36_repr13, base36Slice, List.mem_map, List.mem_range] at hb
      obtain ⟨j, _, rfl⟩ := hb
      have h36 : n / 36 ^ (13 - 1 - j) % 36 < 36 := Nat.mod_lt _ (by norm_num)
      unfold digit36
      split_ifs with hlt
      · left; omega
      · right; omega
    · intro k hk
      rw [encodeLoop_full, writeBytesAt_getElem?,
        if_neg (by rw [base36_repr13, base36Slice_length]; omega)]
  · intro hcap
    rw [encode_base36_fixed13, if_pos hcap]
    exact ⟨rfl, rfl⟩

/-- Witness for C5: value 0 renders as thirteen `0` characters, value 35 as
twelve `0`s then `Z`, and a 10-byte destination is rejected untouched. -/
theorem C5_encode_base36_witness :
    (encode_base36_fixed13 (List.replicate 20 0) 0 0).2 = 13 ∧
    region (encode_base36_fixed13 (List.replicate 20 0) 0 0).1 0 13 =
      [48, 48, 48, 48, 48, 48, 48, 48, 48, 48, 48, 48, 48] ∧
    region (encode_base36_fixed13 (List.replicate 20 0) 0 35).1 0 13 =
      [48, 48, 48, 48, 48, 48, 48, 48, 48, 48, 48, 48, 90] ∧
    (encode_base36_fixed13 (List.replicate 10 0) 0 123).2 = 0 ∧
    (encode_base36_fixed13 (List.replicate 10 0) 0 123).1 = List.replicate 10 0 := by
  have hcap20 : (13 : Nat) ≤ (List.replicate 20 (0 : Nat)).length - 0 := by
    rw [List.length_replicate]
    omega
  have h0 := (C5_encode_base36 (List.replicate 20 0) 0 0).1 hcap20
  have h35 := (C5_encode_base36 (List.replicate 20 0) 0 35).1 hcap20
  have hsmall := (C5_encode_base36 (List.replicate 10 0) 0 123).2
    (by rw [List.length_replicate]; omega)
  refine ⟨h0.1, ?_, ?_, hsmall.1, hsmall.2⟩
  · rw [h0.2.2.1]
    decide
  · rw [h35.2.2.1]
    decide

/-- C10: when the destination lacks 13 bytes of capacity after the tag
prefix, `write_tag_and_ClOrdID` does not propagate the encoder's failure:
it writes the SOH delimiter (byte 1) immediately after the tag prefix and
returns `tag_and_eq.length + 1`, producing a field with an empty
identifier value. -/
theorem C10_clordid_insufficient (bytes : List Nat) (offset : Nat)
    (tag_and_eq : List Nat) (id : Nat)
    (hcap : bytes.length - (offset + tag_and_eq.length) < 13)
    (hsoh : offset + tag_and_eq.length < bytes.length) :
    (write_tag_and_ClOrdID bytes offset tag_and_eq id).2 = tag_and_eq.length + 1 ∧
    (write_tag_and_ClOrdID bytes offset tag_and_eq id).1[offset + tag_and_eq.length]? =
      some 1 := by
  have hbranch : encode_base36_fixed13 (writeBytesAt bytes offset tag_and_eq)
      (offset + tag_and_eq.length) id = (writeBytesAt bytes offset tag_and_eq, 0) := by
    rw [encode_base36_fixed13, if_pos (by rw [writeBytesAt_length]; omega)]
  simp only [write_tag_and_ClOrdID, hbranch]
  refine ⟨by trivial, ?_⟩
  rw [List.getElem?_set]
  rw [if_pos (by omega), if_pos (by rw [writeBytesAt_length]; omega)]

/-- Witness for C10: a 4-byte buffer, a 3-byte tag prefix, identifier 5. -/
theorem C10_clordid_insufficient_witness :
    (write_tag_and_ClOrdID (List.replicate 4 0) 0 [49, 49, 61] 5).2 = 4 ∧
    (write_tag_and_ClOrdID (List.replicate 4 0) 0 [49, 49, 61] 5).1[3]? = some 1 :=
  C10_clordid_insufficient (List.replicate 4 0) 0 [49, 49, 61] 5
    (by rw [List.length_replicate]; norm_num)
    (by rw [List.length_replicate]; norm_num)

/-- C7: rendering a `MissingRequiredFields` error whose mask is 0 yields
exactly the fixed message, independent of the number or contents of the
descriptors. -/
theorem C7_mask_zero_message (meta : List (String × Nat × Nat)) :
    renderReadError (ReadError.MissingRequiredFields 0 meta) =
      "No required members are missing" := rfl

/-- The names whose mask bit is set, in descriptor order, as the spec words
it (bit membership via `Nat.testBit`, no special case for mask zero). -/
def specMissingNames (mask : Nat) (meta : List (String × Nat × Nat)) : List String :=
  (meta.enum.filter fun p => Nat.testBit mask p.1).map fun p => p.2.1

/-- C8 counterexample: the claim fails for descriptor tables longer than
the 64-bit mask.  With mask 1 and 65 descriptors, only mask bit 0 is set,
yet the masked shift of the release-mode bit test `(mask >> (i % 64)) & 1`
re-reads bit 0 at descriptor index 64, so the program returns two names
where the set-bit list has one. -/
theorem C8_counterexample_shift_mask :
    missing_member_names (ReadError.MissingRequiredFields 1
      (List.replicate 65 ("d", 0, 0))) ≠
      some (specMissingNames 1 (List.replicate 65 ("d", 0, 0))) := by decide

/-- C8 (amended to descriptor tables of at most 64 entries, the indices the
64-bit mask can address): `missing_member_names` returns, for the
missing-fields shape, the ordered list of descriptor names whose mask bit
is set -- the empty list (wrapped in `some`, not absence) when the mask is
0 -- and `none` for the invalid-value shape. -/
theorem C8_missing_member_names (mask : Nat) (meta : List (String × Nat × Nat))
    (name : String) (tag : Nat) (msg : String) (hlen : meta.length ≤ 64) :
    missing_member_names (ReadError.MissingRequiredFields mask meta) =
      some (specMissingNames mask meta) ∧
    missing_member_names (ReadError.InvalidValue name tag msg) = none := by
  refine ⟨?_, rfl⟩
  rw [missing_member_names]
  congr 1
  by_cases h0 : mask = 0
  · subst h0
    rw [if_neg (by simp)]
    simp [specMissingNames, Nat.zero_testBit]
  · rw [if_pos h0]
    unfold specMissingNames
    congr 1
    apply List.filter_congr
    intro p hp
    have hplt : p.1 < meta.length := List.fst_lt_of_mem_enum hp
    rw [Nat.mod_eq_of_lt (by omega : p.1 < 64)]
    simp [Nat.testBit_to_div_mod, Nat.shiftRight_eq_div_pow]

/-- Witness for C8 on the three-descriptor table of the source tests with
mask 0b101, and on a concrete invalid-value error. -/
theorem C8_missing_member_names_witness :
    missing_member_names (ReadError.MissingRequiredFields 5
      [("Field1", 1, 0), ("Field2", 2, 0), ("Field3", 3, 0)]) =
      some (specMissingNames 5 [("Field1", 1, 0), ("Field2", 2, 0), ("Field3", 3, 0)]) ∧
    missing_member_names (ReadError.InvalidValue "TestField" 42 "Bad") = none :=
  C8_missing_member_names 5 [("Field1", 1, 0), ("Field2", 2, 0), ("Field3", 3, 0)]
    "TestField" 42 "Bad" (by norm_num)
